import Mathlib

/-!
Verification of the numbered-response parser and startup logic of the
job-applyer repository (src/main.py, src/apply_cli.py, src/test.py).

Python strings are embedded as `List Char`.  The model covers the ASCII
fragment the program manipulates: `str.strip` is modelled over the ASCII
whitespace characters, `str.isdigit` over the ASCII digits `'0'..'9'`, and
`str.splitlines` over the newline character `'\n'` (the concrete inputs of
the claims contain no other line-break or non-ASCII characters).
-/

namespace JobApplyer

/-- The whitespace characters removed by Python `str.strip()` (ASCII part). -/
def isPySpace (c : Char) : Bool :=
  c = ' ' || c = '\t' || c = '\n' || c = '\r' || c = '\x0b' || c = '\x0c'

/-- Characters on which Python `str.splitlines()` breaks lines (the model
treats only `'\n'` as a line break, so inputs are assumed free of the rest). -/
def isLineBreak (c : Char) : Bool :=
  c = '\n' || c = '\r' || c = '\x0b' || c = '\x0c' ||
  c = '\x1c' || c = '\x1d' || c = '\x1e' || c = '\x85' ||
  c = '\u2028' || c = '\u2029'

/-- Python `str.lstrip()`. -/
def pyLstrip (cs : List Char) : List Char := cs.dropWhile isPySpace

/-- Python `str.rstrip()`. -/
def pyRstrip (cs : List Char) : List Char := (cs.reverse.dropWhile isPySpace).reverse

/-- Python `str.strip()`. -/
def pyStrip (cs : List Char) : List Char := pyRstrip (pyLstrip cs)

/-- `s.split(sep)` for a one-character separator, Python semantics:
`"".split(".") = [""]`, empty pieces kept. -/
def splitChar (sep : Char) : List Char → List (List Char)
  | [] => [[]]
  | c :: cs =>
    match splitChar sep cs with
    | [] => [[]]
    | g :: gs => if c = sep then [] :: g :: gs else (c :: g) :: gs

/-- `sep.join(groups)` for a one-character separator. -/
def joinChar (sep : Char) : List (List Char) → List Char
  | [] => []
  | [g] => g
  | g :: gs => g ++ sep :: joinChar sep gs

/-- `line.split(".")[0]`: the text before the first dot
(equal to `takeWhile` since Python keeps everything up to the first
separator in the first piece). -/
def beforeDot (cs : List Char) : List Char := cs.takeWhile (fun c => c != '.')

/-- `".".join(line.split(".")[1:])` (in `main.py`) and `line.split(".", 1)[1]`
(in `apply_cli.py`): both equal the text after the first dot, and the empty
string when there is no dot. -/
def afterDot (cs : List Char) : List Char := (cs.dropWhile (fun c => c != '.')).tail

/-! ### Lemmas about strip -/

theorem dropWhile_append' (p : Char → Bool) (xs ys : List Char) :
    (xs ++ ys).dropWhile p =
      if (xs.dropWhile p).isEmpty then ys.dropWhile p else xs.dropWhile p ++ ys := by
  induction xs with
  | nil => simp
  | cons c xs ih =>
    by_cases h : p c
    · simpa [List.dropWhile_cons, h] using ih
    · simp [List.dropWhile_cons, h]

theorem dropWhile_idem (p : Char → Bool) (xs : List Char) :
    (xs.dropWhile p).dropWhile p = xs.dropWhile p := by
  induction xs with
  | nil => simp
  | cons c xs ih =>
    by_cases h : p c
    · simpa [List.dropWhile_cons, h] using ih
    · simp [List.dropWhile_cons, h]

theorem dropWhile_eq_nil_iff' (p : Char → Bool) (xs : List Char) :
    xs.dropWhile p = [] ↔ ∀ c ∈ xs, p c := by
  induction xs with
  | nil => simp
  | cons c xs ih =>
    by_cases h : p c
    · simp [List.dropWhile_cons, h, ih]
    · simp [List.dropWhile_cons, h]

theorem pyRstrip_append (xs ys : List Char) :
    pyRstrip (xs ++ ys) =
      if pyRstrip ys = [] then pyRstrip xs else xs ++ pyRstrip ys := by
  unfold pyRstrip
  rw [List.reverse_append, dropWhile_append' isPySpace ys.reverse xs.reverse]
  by_cases h : ys.reverse.dropWhile isPySpace = []
  · simp [h]
  · have h' : (ys.reverse.dropWhile isPySpace).isEmpty = false := by
      simpa [List.isEmpty_iff] using h
    have h'' : (ys.reverse.dropWhile isPySpace).reverse ≠ [] := by
      simpa using h
    simp [h', h'', List.reverse_append]

theorem pyRstrip_single (c : Char) :
    pyRstrip [c] = if isPySpace c then [] else [c] := by
  by_cases h : isPySpace c <;> simp [pyRstrip, List.dropWhile_cons, h]

theorem pyRstrip_cons_neg {c : Char} (h : isPySpace c = false) (cs : List Char) :
    pyRstrip (c :: cs) = c :: pyRstrip cs := by
  have hap := pyRstrip_append [c] cs
  rw [List.singleton_append] at hap
  by_cases hn : pyRstrip cs = []
  · rw [if_pos hn] at hap
    rw [hn, hap, pyRstrip_single, if_neg (by simp [h])]
  · rw [if_neg hn] at hap
    rw [hap, List.singleton_append]

theorem pyRstrip_cons_pos {c : Char} (h : isPySpace c = true) (cs : List Char) :
    pyRstrip (c :: cs) = if pyRstrip cs = [] then [] else c :: pyRstrip cs := by
  have hap := pyRstrip_append [c] cs
  rw [List.singleton_append] at hap
  by_cases hn : pyRstrip cs = []
  · rw [if_pos hn] at hap
    rw [if_pos hn, hap, pyRstrip_single, if_pos (by simp [h])]
  · rw [if_neg hn] at hap
    rw [if_neg hn, hap, List.singleton_append]

theorem pyRstrip_idem (cs : List Char) : pyRstrip (pyRstrip cs) = pyRstrip cs := by
  unfold pyRstrip
  rw [List.reverse_reverse, dropWhile_idem]

theorem pyRstrip_eq_nil_iff (cs : List Char) :
    pyRstrip cs = [] ↔ ∀ c ∈ cs, isPySpace c := by
  unfold pyRstrip
  simp [dropWhile_eq_nil_iff' isPySpace cs.reverse]

theorem pyLstrip_cons_pos {c : Char} (h : isPySpace c = true) (cs : List Char) :
    pyLstrip (c :: cs) = pyLstrip cs := by
  simp [pyLstrip, List.dropWhile_cons, h]

theorem pyLstrip_cons_neg {c : Char} (h : isPySpace c = false) (cs : List Char) :
    pyLstrip (c :: cs) = c :: cs := by
  simp [pyLstrip, List.dropWhile_cons, h]

theorem pyStrip_cons_ws {c : Char} (h : isPySpace c = true) (cs : List Char) :
    pyStrip (c :: cs) = pyStrip cs := by
  simp [pyStrip, pyLstrip_cons_pos h]

theorem pyStrip_cons_not_ws {c : Char} (h : isPySpace c = false) (cs : List Char) :
    pyStrip (c :: cs) = c :: pyRstrip cs := by
  simp [pyStrip, pyLstrip_cons_neg h, pyRstrip_cons_neg h]

theorem pyLstrip_eq_nil_iff (cs : List Char) :
    pyLstrip cs = [] ↔ ∀ c ∈ cs, isPySpace c := by
  simp [pyLstrip, dropWhile_eq_nil_iff']

theorem pyStrip_pyRstrip (cs : List Char) : pyStrip (pyRstrip cs) = pyStrip cs := by
  induction cs with
  | nil => rfl
  | cons c cs ih =>
    by_cases h : isPySpace c
    · rw [pyRstrip_cons_pos h]
      by_cases hn : pyRstrip cs = []
      · rw [if_pos hn, pyStrip_cons_ws h, ← ih, hn]
      · rw [if_neg hn, pyStrip_cons_ws h, pyStrip_cons_ws h, ih]
    · have h' : isPySpace c = false := by simpa using h
      rw [pyRstrip_cons_neg h', pyStrip_cons_not_ws h', pyStrip_cons_not_ws h',
        pyRstrip_idem]

theorem pyLstrip_idem (cs : List Char) : pyLstrip (pyLstrip cs) = pyLstrip cs :=
  dropWhile_idem isPySpace cs

theorem pyLstrip_pyRstrip_comm (cs : List Char) :
    pyLstrip (pyRstrip cs) = pyRstrip (pyLstrip cs) := by
  induction cs with
  | nil => rfl
  | cons c cs ih =>
    by_cases h : isPySpace c
    · rw [pyRstrip_cons_pos h, pyLstrip_cons_pos h]
      by_cases hn : pyRstrip cs = []
      · have hall : ∀ x ∈ cs, isPySpace x = true := (pyRstrip_eq_nil_iff cs).1 hn
        have hl : pyLstrip cs = [] := (pyLstrip_eq_nil_iff cs).2 hall
        rw [if_pos hn, hl]
        rfl
      · rw [if_neg hn, pyLstrip_cons_pos h, ih]
    · have h' : isPySpace c = false := by simpa using h
      rw [pyRstrip_cons_neg h', pyLstrip_cons_neg h', pyLstrip_cons_neg h',
        pyRstrip_cons_neg h']

theorem pyStrip_idem (cs : List Char) : pyStrip (pyStrip cs) = pyStrip cs := by
  unfold pyStrip
  rw [pyLstrip_pyRstrip_comm, pyRstrip_idem, pyLstrip_idem]

theorem pyRstrip_of_not_ws {cs : List Char} (h : ∀ c ∈ cs, isPySpace c = false) :
    pyRstrip cs = cs := by
  induction cs with
  | nil => rfl
  | cons c cs ih =>
    rw [pyRstrip_cons_neg (h c (by simp)), ih (fun x hx => h x (by simp [hx]))]

theorem pyStrip_of_not_ws {cs : List Char} (h : ∀ c ∈ cs, isPySpace c = false) :
    pyStrip cs = cs := by
  cases cs with
  | nil => rfl
  | cons c cs =>
    rw [pyStrip_cons_not_ws (h c (by simp)),
      pyRstrip_of_not_ws (fun x hx => h x (by simp [hx]))]


/-! ### Lemmas about splitChar and joinChar -/

theorem splitChar_ne_nil (sep : Char) (cs : List Char) : splitChar sep cs ≠ [] := by
  cases cs with
  | nil => simp [splitChar]
  | cons c cs =>
    unfold splitChar
    match h : splitChar sep cs with
    | [] => simp
    | g :: gs => by_cases hc : c = sep <;> simp [hc]

theorem splitChar_cons (sep c : Char) (cs : List Char) :
    splitChar sep (c :: cs) =
      match splitChar sep cs with
      | [] => [[]]
      | g :: gs => if c = sep then [] :: g :: gs else (c :: g) :: gs := rfl

theorem splitChar_of_no_sep {sep : Char} {cs : List Char}
    (h : ∀ c ∈ cs, c ≠ sep) : splitChar sep cs = [cs] := by
  induction cs with
  | nil => rfl
  | cons c cs ih =>
    rw [splitChar_cons, ih (fun x hx => h x (by simp [hx]))]
    simp [h c (by simp)]

theorem splitChar_append_sep {sep : Char} {xs : List Char} (ys : List Char)
    (h : ∀ c ∈ xs, c ≠ sep) :
    splitChar sep (xs ++ sep :: ys) = xs :: splitChar sep ys := by
  induction xs with
  | nil =>
    rw [List.nil_append, splitChar_cons]
    match hy : splitChar sep ys with
    | [] => exact absurd hy (splitChar_ne_nil sep ys)
    | g :: gs => simp
  | cons c xs ih =>
    rw [List.cons_append, splitChar_cons, ih (fun x hx => h x (by simp [hx]))]
    simp [h c (by simp)]

theorem joinChar_splitChar (sep : Char) (cs : List Char) :
    joinChar sep (splitChar sep cs) = cs := by
  induction cs with
  | nil => rfl
  | cons c cs ih =>
    obtain ⟨g, gs, hy⟩ : ∃ g gs, splitChar sep cs = g :: gs := by
      cases hx : splitChar sep cs with
      | nil => exact absurd hx (splitChar_ne_nil sep cs)
      | cons g gs => exact ⟨g, gs, rfl⟩
    rw [hy] at ih
    rw [splitChar_cons, hy]
    show joinChar sep (if c = sep then [] :: g :: gs else (c :: g) :: gs) = c :: cs
    by_cases hc : c = sep
    · rw [if_pos hc]
      rw [show joinChar sep ([] :: g :: gs) = [] ++ sep :: joinChar sep (g :: gs)
        from rfl]
      rw [ih, hc]
      rfl
    · rw [if_neg hc]
      cases gs with
      | nil =>
        rw [show joinChar sep [c :: g] = c :: g from rfl]
        rw [show joinChar sep [g] = g from rfl] at ih
        rw [ih]
      | cons g' gs' =>
        rw [show joinChar sep ((c :: g) :: g' :: gs') =
            (c :: g) ++ sep :: joinChar sep (g' :: gs') from rfl]
        rw [show joinChar sep (g :: g' :: gs') =
            g ++ sep :: joinChar sep (g' :: gs') from rfl] at ih
        rw [List.cons_append, ih]

theorem splitChar_joinChar {sep : Char} {ls : List (List Char)} (hne : ls ≠ [])
    (h : ∀ l ∈ ls, ∀ c ∈ l, c ≠ sep) :
    splitChar sep (joinChar sep ls) = ls := by
  induction ls with
  | nil => exact absurd rfl hne
  | cons l ls ih =>
    cases ls with
    | nil =>
      show splitChar sep (joinChar sep [l]) = [l]
      rw [show joinChar sep [l] = l from rfl]
      exact splitChar_of_no_sep (h l (by simp))
    | cons l' ls' =>
      rw [show joinChar sep (l :: l' :: ls') = l ++ sep :: joinChar sep (l' :: ls')
          from rfl,
        splitChar_append_sep _ (h l (by simp)),
        ih (by simp) (fun x hx c hc => h x (by simp [hx]) c hc)]

theorem takeWhile_append_stop {p : Char → Bool} {xs : List Char} (y : Char)
    (ys : List Char) (hxs : ∀ c ∈ xs, p c = true) (hy : p y = false) :
    (xs ++ y :: ys).takeWhile p = xs := by
  induction xs with
  | nil => simp [List.takeWhile_cons, hy]
  | cons c xs ih =>
    rw [List.cons_append, List.takeWhile_cons, hxs c (by simp),
      ih (fun x hx => hxs x (by simp [hx]))]
    simp

theorem dropWhile_append_stop {p : Char → Bool} {xs : List Char} (y : Char)
    (ys : List Char) (hxs : ∀ c ∈ xs, p c = true) (hy : p y = false) :
    (xs ++ y :: ys).dropWhile p = y :: ys := by
  induction xs with
  | nil => simp [List.dropWhile_cons, hy]
  | cons c xs ih =>
    rw [List.cons_append, List.dropWhile_cons, if_pos (hxs c (by simp)),
      ih (fun x hx => hxs x (by simp [hx]))]

/-! ### Python `int()` on the ASCII fragment -/

/-- A nonempty run of ASCII digits possibly separated by single underscores
(Python 3 accepts `int("1_0") = 10` but rejects leading, trailing or doubled
underscores); returns the digits with underscores removed. -/
def usDigits? : List Char → Option (List Char)
  | [] => none
  | [c] => if c.isDigit then some [c] else none
  | c :: d :: rest =>
    if c.isDigit then
      if d = '_' then
        match rest with
        | [] => none
        | _ :: _ => (usDigits? rest).map (c :: ·)
      else (usDigits? (d :: rest)).map (c :: ·)
    else none

/-- Numeric value of an ASCII digit. -/
def digitVal (c : Char) : Nat := c.toNat - 48

/-- Value of a big-endian ASCII digit string. -/
def digitsVal (cs : List Char) : Nat := cs.foldl (fun a c => 10 * a + digitVal c) 0

/-- Python `int(s)` on the ASCII fragment: surrounding whitespace stripped,
optional single sign, then digits with optional single underscores;
`none` models the `ValueError` raised on anything else. -/
def pyInt? (cs : List Char) : Option Int :=
  if (pyStrip cs).headD ' ' = '+' then
    (usDigits? (pyStrip cs).tail).map (fun ds => (digitsVal ds : Int))
  else if (pyStrip cs).headD ' ' = '-' then
    (usDigits? (pyStrip cs).tail).map (fun ds => -(digitsVal ds : Int))
  else (usDigits? (pyStrip cs)).map (fun ds => (digitsVal ds : Int))

/-- Fuel-driven helper computing decimal digits (structural recursion so
that the kernel can evaluate it). -/
def natCharsAux : Nat → Nat → List Char
  | 0, _ => []
  | fuel + 1, n =>
    if n < 10 then [Char.ofNat (48 + n)]
    else natCharsAux fuel (n / 10) ++ [Char.ofNat (48 + n % 10)]

/-- The decimal digit string of a natural number. -/
def natChars (n : Nat) : List Char := natCharsAux (n + 1) n

theorem natCharsAux_irrel : ∀ f1 f2 n : Nat, n < f1 → n < f2 →
    natCharsAux f1 n = natCharsAux f2 n := by
  intro f1
  induction f1 with
  | zero => intro f2 n h1 _; omega
  | succ a ih =>
    intro f2 n h1 h2
    cases f2 with
    | zero => omega
    | succ b =>
      show (if n < 10 then [Char.ofNat (48 + n)]
          else natCharsAux a (n / 10) ++ [Char.ofNat (48 + n % 10)]) =
        (if n < 10 then [Char.ofNat (48 + n)]
          else natCharsAux b (n / 10) ++ [Char.ofNat (48 + n % 10)])
      by_cases h10 : n < 10
      · rw [if_pos h10, if_pos h10]
      · rw [if_neg h10, if_neg h10,
          ih b (n / 10) (by omega) (by omega)]

/-- The defining recursion of `natChars`. -/
theorem natChars_eq (n : Nat) :
    natChars n = if n < 10 then [Char.ofNat (48 + n)]
      else natChars (n / 10) ++ [Char.ofNat (48 + n % 10)] := by
  show (if n < 10 then [Char.ofNat (48 + n)]
      else natCharsAux n (n / 10) ++ [Char.ofNat (48 + n % 10)]) = _
  by_cases h10 : n < 10
  · rw [if_pos h10, if_pos h10]
  · rw [if_neg h10, if_neg h10,
      natCharsAux_irrel n (n / 10 + 1) (n / 10) (by omega) (by omega)]
    rfl

theorem digit_char_facts :
    ∀ n, n < 10 → (Char.ofNat (48 + n)).isDigit = true ∧
      (Char.ofNat (48 + n)).toNat = 48 + n := by decide

theorem natChars_ne_nil (n : Nat) : natChars n ≠ [] := by
  rw [natChars_eq]
  by_cases h : n < 10 <;> simp [h]

theorem natChars_all_digit (n : Nat) : ∀ c ∈ natChars n, c.isDigit = true := by
  induction n using Nat.strong_induction_on with
  | _ n ih =>
    rw [natChars_eq]
    by_cases h : n < 10
    · simpa [h] using (digit_char_facts n h).1
    · have hd : n / 10 < n := Nat.div_lt_self (by omega) (by omega)
      simp only [h, if_false]
      intro c hc
      rcases List.mem_append.1 hc with hc | hc
      · exact ih _ hd c hc
      · have : c = Char.ofNat (48 + n % 10) := by simpa using hc
        rw [this]
        exact (digit_char_facts (n % 10) (Nat.mod_lt n (by omega))).1

theorem isDigit_not_ws {c : Char} (h : c.isDigit = true) : isPySpace c = false := by
  revert h
  unfold isPySpace Char.isDigit
  by_cases h1 : c = ' '
  · subst h1; decide
  by_cases h2 : c = '\t'
  · subst h2; decide
  by_cases h3 : c = '\n'
  · subst h3; decide
  by_cases h4 : c = '\r'
  · subst h4; decide
  by_cases h5 : c = '\x0b'
  · subst h5; decide
  by_cases h6 : c = '\x0c'
  · subst h6; decide
  simp [h1, h2, h3, h4, h5, h6]

theorem isDigit_ne_dot {c : Char} (h : c.isDigit = true) : c ≠ '.' := by
  intro he
  subst he
  exact absurd h (by decide)

theorem isDigit_ne_underscore {c : Char} (h : c.isDigit = true) : c ≠ '_' := by
  intro he
  subst he
  exact absurd h (by decide)

theorem isDigit_ne_plus {c : Char} (h : c.isDigit = true) : c ≠ '+' := by
  intro he
  subst he
  exact absurd h (by decide)

theorem isDigit_ne_minus {c : Char} (h : c.isDigit = true) : c ≠ '-' := by
  intro he
  subst he
  exact absurd h (by decide)

theorem usDigits?_of_all_digit {cs : List Char} (hne : cs ≠ [])
    (h : ∀ c ∈ cs, c.isDigit = true) : usDigits? cs = some cs := by
  induction cs with
  | nil => exact absurd rfl hne
  | cons c cs ih =>
    cases cs with
    | nil => simp [usDigits?, h c (by simp)]
    | cons d cs' =>
      have hd : d.isDigit = true := h d (by simp)
      unfold usDigits?
      rw [if_pos (h c (by simp)), if_neg (isDigit_ne_underscore hd),
        ih (by simp) (fun x hx => h x (by simp [hx]))]
      rfl

theorem digitsVal_append_single (xs : List Char) (c : Char) :
    digitsVal (xs ++ [c]) = 10 * digitsVal xs + digitVal c := by
  unfold digitsVal
  rw [List.foldl_append]
  rfl

theorem digitsVal_natChars (n : Nat) : digitsVal (natChars n) = n := by
  induction n using Nat.strong_induction_on with
  | _ n ih =>
    rw [natChars_eq]
    by_cases h : n < 10
    · simp only [h, if_true]
      show digitsVal [Char.ofNat (48 + n)] = n
      unfold digitsVal digitVal
      simp [(digit_char_facts n h).2]
    · have hd : n / 10 < n := Nat.div_lt_self (by omega) (by omega)
      simp only [h, if_false]
      rw [digitsVal_append_single, ih _ hd]
      unfold digitVal
      rw [(digit_char_facts (n % 10) (Nat.mod_lt n (by omega))).2]
      omega

theorem pyInt?_natChars (n : Nat) : pyInt? (natChars n) = some (n : Int) := by
  have hall := natChars_all_digit n
  have hne := natChars_ne_nil n
  have hstrip : pyStrip (natChars n) = natChars n :=
    pyStrip_of_not_ws (fun c hc => isDigit_not_ws (hall c hc))
  obtain ⟨c, cs, hcc⟩ : ∃ c cs, natChars n = c :: cs := by
    cases hx : natChars n with
    | nil => exact absurd hx hne
    | cons c cs => exact ⟨c, cs, rfl⟩
  have hc : c.isDigit = true := hall c (by rw [hcc]; simp)
  unfold pyInt?
  rw [hstrip, hcc]
  rw [show ((c :: cs).headD ' ') = c from rfl]
  rw [if_neg (isDigit_ne_plus hc), if_neg (isDigit_ne_minus hc)]
  rw [← hcc, usDigits?_of_all_digit hne hall]
  simp [digitsVal_natChars n]


/-! ### The answer dictionary

Python `dict[int, str]` with insertion order: writing an existing key
replaces its value in place, writing a new key appends. -/

/-- `AnswerSet`: mapping from question index to answer text, as an
insertion-ordered association list (the shape of a Python `dict`). -/
abbrev Dict := List (Int × List Char)

/-- `answers[k] = v`: replace the value in place when `k` is present
(keys are unique in a Python dict), else append the new pair. -/
def dictInsert : Dict → Int → List Char → Dict
  | [], k, v => [(k, v)]
  | p :: d, k, v => if p.1 = k then (k, v) :: d else p :: dictInsert d k v

/-- `answers.get(k)` (`None` when absent). -/
def dictGet? : Dict → Int → Option (List Char)
  | [], _ => none
  | p :: d, k => if p.1 = k then some p.2 else dictGet? d k

theorem dictGet?_insert_self (d : Dict) (k : Int) (v : List Char) :
    dictGet? (dictInsert d k v) k = some v := by
  induction d with
  | nil => simp [dictInsert, dictGet?]
  | cons p d ih =>
    by_cases hp : p.1 = k
    · simp [dictInsert, dictGet?, hp]
    · simp [dictInsert, dictGet?, hp, ih]

theorem dictGet?_insert_ne (d : Dict) (k k' : Int) (v : List Char)
    (hne : k' ≠ k) : dictGet? (dictInsert d k v) k' = dictGet? d k' := by
  have hkk : ¬k = k' := fun h => hne h.symm
  induction d with
  | nil => simp [dictInsert, dictGet?, hkk]
  | cons p d ih =>
    by_cases hp : p.1 = k
    · simp [dictInsert, dictGet?, hp, hkk]
    · simp only [dictInsert, if_neg hp]
      by_cases hp' : p.1 = k'
      · simp [dictGet?, hp']
      · simp [dictGet?, hp', ih]

theorem dictInsert_fresh (d : Dict) (k : Int) (v : List Char)
    (h : ∀ p ∈ d, p.1 ≠ k) : dictInsert d k v = d ++ [(k, v)] := by
  induction d with
  | nil => rfl
  | cons p d ih =>
    rw [show dictInsert (p :: d) k v =
        if p.1 = k then (k, v) :: d else p :: dictInsert d k v from rfl]
    rw [if_neg (h p (by simp)), ih (fun q hq => h q (by simp [hq]))]
    rfl

/-! ### The numbered-response parser of `src/main.py`
(`generate_batch_ai_answers`, lines 96-114) -/

/-- The loop state of the parser in `main.py`: the `answers` dict built so
far, the pending `current_idx` (`None` before the first marker) and the
`buffer` of stripped lines of the answer in progress. -/
structure PState where
  answers : Dict
  currentIdx : Option Int
  buffer : List (List Char)
deriving DecidableEq, Repr

/-- The state before the loop: `answers = {}`, `current_idx = None`,
`buffer = []`. -/
def initPState : PState := ⟨[], none, []⟩

/-- `answers[current_idx] = " ".join(buffer).strip()` when `current_idx`
is not `None` (the flush done on a new marker and at end of input). -/
def flushA (st : PState) : Dict :=
  match st.currentIdx with
  | none => st.answers
  | some i => dictInsert st.answers i (pyStrip (joinChar ' ' st.buffer))

/-- One iteration of the loop of `main.py` lines 100-111:
strip the line; skip it when empty; when its first character is a digit and
it contains a dot, flush the buffer and start a new one from the text after
the first dot with `current_idx = int(text before first dot) - 1` (`none`
models the `ValueError` of `int`); otherwise append the stripped line to the
buffer when a marker has been seen. -/
def processLine (st : PState) (raw : List Char) : Option PState :=
  if pyStrip raw = [] then some st
  else if ((pyStrip raw).headD ' ').isDigit = true ∧ '.' ∈ pyStrip raw then
    match pyInt? (beforeDot (pyStrip raw)) with
    | none => none
    | some n =>
      some ⟨flushA st, some (n - 1), [pyStrip (afterDot (pyStrip raw))]⟩
  else if st.currentIdx.isSome then
    some { st with buffer := st.buffer ++ [pyStrip raw] }
  else some st

/-- The whole loop over the lines. -/
def runLines (st : PState) : List (List Char) → Option PState
  | [] => some st
  | l :: ls =>
    match processLine st l with
    | none => none
    | some st' => runLines st' ls

/-- The parser on a list of lines: run the loop from the initial state,
then flush the final buffer (`main.py` lines 112-113). -/
def parseLines (ls : List (List Char)) : Option Dict :=
  (runLines initPState ls).map flushA

/-- The parser of `main.py` on the raw model output; `none` models an
uncaught `ValueError`.  Line splitting is modelled on `'\n'`, which agrees
with `str.splitlines` on inputs free of the other line-break characters. -/
def parseAnswers (text : List Char) : Option Dict :=
  parseLines (splitChar '\n' text)

/-- The line shape `"<n>. <answer>"` used by the well-formedness claims. -/
def markerLine (n : Nat) (a : List Char) : List Char :=
  natChars n ++ '.' :: ' ' :: a

/-- A line is a new-answer marker for the parser of `main.py` exactly when,
after stripping, it is nonempty, its first character is an ASCII digit and
it contains a dot. -/
def IsMarker (raw : List Char) : Prop :=
  pyStrip raw ≠ [] ∧ ((pyStrip raw).headD ' ').isDigit = true ∧
    '.' ∈ pyStrip raw

instance (raw : List Char) : Decidable (IsMarker raw) := by
  unfold IsMarker
  infer_instance

/-! ### The numbered-response parser of `src/apply_cli.py`
(`generate_batch_ai_answers`, lines 34-40) -/

/-- One iteration of the loop of `apply_cli.py` lines 36-39: when the raw
line is nonblank, its first (unstripped) character is a digit and it
contains a dot, split at the first dot and write the stripped right part
under `int(left part) - 1`; other lines are ignored. -/
def cliStep (d : Dict) (line : List Char) : Option Dict :=
  if pyStrip line ≠ [] ∧ (line.headD ' ').isDigit = true ∧ '.' ∈ line then
    match pyInt? (beforeDot line) with
    | none => none
    | some n => some (dictInsert d (n - 1) (pyStrip (afterDot line)))
  else some d

/-- The loop of `apply_cli.py` over the lines. -/
def runCliLines (d : Dict) : List (List Char) → Option Dict
  | [] => some d
  | l :: ls =>
    match cliStep d l with
    | none => none
    | some d' => runCliLines d' ls

/-- The parser of `apply_cli.py` on the raw model output
(`output.split("\n")`, then the loop); `none` models an uncaught
`ValueError`. -/
def parseCli (text : List Char) : Option Dict :=
  runCliLines [] (splitChar '\n' text)

/-! ### The caller of the parser (`src/main.py` `main`, lines 217-224)
and startup (`src/main.py` lines 15-17, `src/apply_cli.py` lines 10-12) -/

/-- `main.py` lines 221-224 with the index of `enumerate` made explicit:
pair each question, in input order, with `answers_dict.get(i, "")`. -/
def qaPairsFrom (answersDict : Dict) (i : Nat) :
    List (List Char) → List (List Char × List Char)
  | [] => []
  | q :: qs =>
    (q, (dictGet? answersDict (i : Int)).getD []) ::
      qaPairsFrom answersDict (i + 1) qs

/-- `main.py` lines 221-224: the `qa_pairs` comprehension,
`[(q, answers_dict.get(i, "")) for i, q in enumerate(questions)]`. -/
def qaPairs (answersDict : Dict) (questions : List (List Char)) :
    List (List Char × List Char) :=
  qaPairsFrom answersDict 0 questions

/-- A process environment, as name-value pairs. -/
abbrev Env := List (List Char × List Char)

/-- `os.getenv(name)` / `os.environ.get(name)`. -/
def envGet (env : Env) (name : List Char) : Option (List Char) :=
  (env.find? (fun p => p.1 == name)).map (fun p => p.2)

/-- The API key variable name. -/
def geminiKeyName : List Char := "GEMINI_API_KEY".toList

/-- The startup check of `main.py` lines 15-17 (identical in
`apply_cli.py` lines 10-12): read `GEMINI_API_KEY` and raise `RuntimeError`
when the value is falsy, i.e. when the variable is unset or empty;
otherwise the module proceeds (to `genai.configure(api_key=...)`) with the
key. -/
def mainStartup (env : Env) : Except (List Char) (List Char) :=
  match envGet env geminiKeyName with
  | none => .error ("GEMINI_API_KEY not found in environment.".toList)
  | some k =>
    if k = [] then .error ("GEMINI_API_KEY not found in environment.".toList)
    else .ok k


/-! ### Behaviour of one parser step -/

theorem processLine_blank (st : PState) {raw : List Char}
    (h : pyStrip raw = []) : processLine st raw = some st := by
  unfold processLine
  rw [if_pos h]

theorem processLine_not_marker (st : PState) {raw : List Char}
    (h0 : pyStrip raw ≠ []) (h1 : ¬ IsMarker raw) :
    processLine st raw =
      if st.currentIdx.isSome then
        some { st with buffer := st.buffer ++ [pyStrip raw] }
      else some st := by
  have h2 : ¬(((pyStrip raw).headD ' ').isDigit = true ∧ '.' ∈ pyStrip raw) :=
    fun hc => h1 ⟨h0, hc⟩
  unfold processLine
  rw [if_neg h0, if_neg h2]

theorem processLine_of_marker (st : PState) {raw : List Char} (h : IsMarker raw) :
    processLine st raw =
      match pyInt? (beforeDot (pyStrip raw)) with
      | none => none
      | some n =>
        some ⟨flushA st, some (n - 1), [pyStrip (afterDot (pyStrip raw))]⟩ := by
  unfold processLine
  rw [if_neg h.1, if_pos h.2]

theorem processLine_markerLine (st : PState) (n : Nat) (a : List Char) :
    processLine st (markerLine n a) =
      some ⟨flushA st, some ((n : Int) - 1), [pyStrip a]⟩ := by
  obtain ⟨d, ds, hnat⟩ : ∃ d ds, natChars n = d :: ds := by
    cases hx : natChars n with
    | nil => exact absurd hx (natChars_ne_nil n)
    | cons d ds => exact ⟨d, ds, rfl⟩
  have hd : d.isDigit = true := natChars_all_digit n d (by rw [hnat]; simp)
  have hstrip : pyStrip (markerLine n a) =
      natChars n ++ '.' :: pyRstrip (' ' :: a) := by
    unfold markerLine
    rw [hnat, List.cons_append, pyStrip_cons_not_ws (isDigit_not_ws hd),
      pyRstrip_append, pyRstrip_cons_neg (show isPySpace '.' = false by decide),
      if_neg (by simp)]
    simp
  have hne : pyStrip (markerLine n a) ≠ [] := by
    rw [hstrip, hnat]
    simp
  have hhead : ((pyStrip (markerLine n a)).headD ' ') = d := by
    rw [hstrip, hnat]
    rfl
  have hdot : '.' ∈ pyStrip (markerLine n a) := by
    rw [hstrip]
    exact List.mem_append.2 (Or.inr (by simp))
  have hdigits : ∀ c ∈ natChars n, (c != '.') = true := fun c hc => by
    simpa using isDigit_ne_dot (natChars_all_digit n c hc)
  have hbefore : beforeDot (pyStrip (markerLine n a)) = natChars n := by
    rw [hstrip]
    exact takeWhile_append_stop '.' _ hdigits (by decide)
  have hafter : afterDot (pyStrip (markerLine n a)) = pyRstrip (' ' :: a) := by
    rw [hstrip]
    unfold afterDot
    rw [dropWhile_append_stop '.' _ hdigits (by decide)]
    rfl
  have hstripa : pyStrip (pyRstrip (' ' :: a)) = pyStrip a := by
    rw [pyStrip_pyRstrip, pyStrip_cons_ws (show isPySpace ' ' = true by decide)]
  unfold processLine
  rw [if_neg hne, if_pos (And.intro (by rw [hhead]; exact hd) hdot), hbefore,
    pyInt?_natChars]
  show some (⟨flushA st, some ((n : Int) - 1),
      [pyStrip (afterDot (pyStrip (markerLine n a)))]⟩ : PState) = _
  rw [hafter, hstripa]

/-! ### Behaviour of the loop -/

theorem runLines_nil (st : PState) : runLines st [] = some st := rfl

theorem runLines_cons (st : PState) (l : List Char) (ls : List (List Char)) :
    runLines st (l :: ls) =
      match processLine st l with
      | none => none
      | some st' => runLines st' ls := rfl

theorem runLines_append (st : PState) (xs ys : List (List Char)) :
    runLines st (xs ++ ys) =
      match runLines st xs with
      | none => none
      | some st' => runLines st' ys := by
  induction xs generalizing st with
  | nil => rfl
  | cons x xs ih =>
    rw [List.cons_append, runLines_cons, runLines_cons]
    cases processLine st x with
    | none => rfl
    | some st' => exact ih st'

/-- A run of non-marker lines under an open answer: the nonblank lines are
appended, stripped, to the buffer; blank lines are skipped; nothing is
flushed. -/
theorem runLines_cont_block (cs : List (List Char)) (st : PState)
    (hidx : st.currentIdx.isSome) (h : ∀ c ∈ cs, ¬ IsMarker c) :
    runLines st cs =
      some { st with
        buffer := st.buffer ++ (cs.map pyStrip).filter (fun l => l ≠ []) } := by
  induction cs generalizing st with
  | nil => simp [runLines]
  | cons c cs ih =>
    rw [runLines_cons]
    by_cases hb : pyStrip c = []
    · rw [processLine_blank st hb]
      show runLines st cs = _
      rw [ih st hidx (fun x hx => h x (by simp [hx]))]
      simp [hb]
    · rw [processLine_not_marker st hb (h c (by simp)), if_pos hidx]
      show runLines { st with buffer := st.buffer ++ [pyStrip c] } cs = _
      rw [ih _ (by simpa using hidx) (fun x hx => h x (by simp [hx]))]
      simp [List.filter_cons, hb]

/-! ### Runs made only of well-formed marker lines -/

/-- The lines `"<n1>. <a1>", "<n2>. <a2>", ...`. -/
def markerLines (bs : List (Nat × List Char)) : List (List Char) :=
  bs.map (fun b => markerLine b.1 b.2)

/-- What one marker contributes to the dictionary. -/
def insStep (d : Dict) (b : Nat × List Char) : Dict :=
  dictInsert d ((b.1 : Int) - 1) (pyStrip b.2)

theorem runLines_markerLines (bs : List (Nat × List Char)) (st : PState) :
    (runLines st (markerLines bs)).map flushA =
      some (bs.foldl insStep (flushA st)) := by
  induction bs generalizing st with
  | nil => rfl
  | cons b bs ih =>
    rw [show markerLines (b :: bs) = markerLine b.1 b.2 :: markerLines bs from rfl,
      runLines_cons, processLine_markerLine]
    show (runLines ⟨flushA st, some ((b.1 : Int) - 1), [pyStrip b.2]⟩
        (markerLines bs)).map flushA = _
    rw [ih]
    have hfl : flushA ⟨flushA st, some ((b.1 : Int) - 1), [pyStrip b.2]⟩ =
        insStep (flushA st) b := by
      show dictInsert (flushA st) ((b.1 : Int) - 1)
          (pyStrip (joinChar ' ' [pyStrip b.2])) = _
      rw [show joinChar ' ' [pyStrip b.2] = pyStrip b.2 from rfl, pyStrip_idem]
      rfl
    rw [hfl]
    rfl

theorem parseLines_markerLines (bs : List (Nat × List Char)) :
    parseLines (markerLines bs) = some (bs.foldl insStep []) := by
  unfold parseLines
  rw [runLines_markerLines]
  rfl

/-- Sequential numbering from `k`. -/
def numberFrom (k : Nat) : List (List Char) → List (Nat × List Char)
  | [] => []
  | a :: as => (k, a) :: numberFrom (k + 1) as

theorem foldl_insStep_numberFrom (as : List (List Char)) (k : Nat) (d : Dict)
    (hd : ∀ p ∈ d, p.1 < (k : Int) - 1) :
    (numberFrom k as).foldl insStep d =
      d ++ (numberFrom k as).map (fun b => ((b.1 : Int) - 1, pyStrip b.2)) := by
  induction as generalizing k d with
  | nil => simp [numberFrom]
  | cons a as ih =>
    rw [show numberFrom k (a :: as) = (k, a) :: numberFrom (k + 1) as from rfl,
      List.foldl_cons,
      show insStep d (k, a) = dictInsert d ((k : Int) - 1) (pyStrip a) from rfl,
      dictInsert_fresh _ _ _ (fun p hp => by have := hd p hp; omega)]
    rw [ih (k + 1) _ (fun p hp => by
      rcases List.mem_append.1 hp with hp | hp
      · have := hd p hp
        push_cast
        omega
      · have hq : p = ((k : Int) - 1, pyStrip a) := by simpa using hp
        rw [hq]
        push_cast
        omega)]
    simp [List.map_cons]

/-! ### Line splitting of texts assembled from linebreak-free pieces -/

theorem markerLine_no_newline {n : Nat} {a : List Char}
    (ha : ∀ c ∈ a, isLineBreak c = false) : ∀ c ∈ markerLine n a, c ≠ '\n' := by
  intro c hc he
  subst he
  unfold markerLine at hc
  rcases List.mem_append.1 hc with hc | hc
  · exact absurd (natChars_all_digit n _ hc) (by decide)
  · rcases List.mem_cons.1 hc with he | hc
    · exact absurd he (by decide)
    · rcases List.mem_cons.1 hc with he | hc
      · exact absurd he (by decide)
      · exact absurd (ha _ hc) (by decide)

theorem splitChar_joinChar_markerLines {bs : List (Nat × List Char)}
    (hbs : bs ≠ []) (ha : ∀ b ∈ bs, ∀ c ∈ b.2, isLineBreak c = false) :
    splitChar '\n' (joinChar '\n' (markerLines bs)) = markerLines bs := by
  apply splitChar_joinChar
  · simp [markerLines, hbs]
  · intro l hl c hc
    obtain ⟨b, hb, rfl⟩ := List.mem_map.1 hl
    exact markerLine_no_newline (ha b hb) c hc


/-! ### More helper lemmas -/

theorem pyStrip_eq_nil_iff (cs : List Char) :
    pyStrip cs = [] ↔ ∀ c ∈ cs, isPySpace c := by
  constructor
  · intro h c hc
    rw [← List.takeWhile_append_dropWhile (p := isPySpace) (l := cs)] at hc
    rcases List.mem_append.1 hc with hc | hc
    · exact List.mem_takeWhile_imp hc
    · exact (pyRstrip_eq_nil_iff _).1 h c hc
  · intro h
    have hl : pyLstrip cs = [] := (pyLstrip_eq_nil_iff cs).2 h
    unfold pyStrip
    rw [hl]
    rfl

theorem cliStep_markerLine (d : Dict) (n : Nat) (a : List Char) :
    cliStep d (markerLine n a) = some (insStep d (n, a)) := by
  obtain ⟨c0, ds, hnat⟩ : ∃ c0 ds, natChars n = c0 :: ds := by
    cases hx : natChars n with
    | nil => exact absurd hx (natChars_ne_nil n)
    | cons c0 ds => exact ⟨c0, ds, rfl⟩
  have hc0 : c0.isDigit = true := natChars_all_digit n c0 (by rw [hnat]; simp)
  have hne : pyStrip (markerLine n a) ≠ [] := by
    intro he
    have := (pyStrip_eq_nil_iff _).1 he '.'
      (by
        unfold markerLine
        exact List.mem_append.2 (Or.inr (by simp)))
    exact absurd this (by decide)
  have hhead : ((markerLine n a).headD ' ') = c0 := by
    unfold markerLine
    rw [hnat]
    rfl
  have hdot : '.' ∈ markerLine n a := by
    unfold markerLine
    exact List.mem_append.2 (Or.inr (by simp))
  have hdigits : ∀ c ∈ natChars n, (c != '.') = true := fun c hc => by
    simpa using isDigit_ne_dot (natChars_all_digit n c hc)
  have hbefore : beforeDot (markerLine n a) = natChars n := by
    unfold markerLine beforeDot
    exact takeWhile_append_stop '.' _ hdigits (by decide)
  have hafter : afterDot (markerLine n a) = ' ' :: a := by
    unfold markerLine afterDot
    rw [dropWhile_append_stop '.' _ hdigits (by decide)]
    rfl
  unfold cliStep
  rw [if_pos (And.intro hne (And.intro (by rw [hhead]; exact hc0) hdot)), hbefore,
    pyInt?_natChars]
  show some (dictInsert d ((n : Int) - 1) (pyStrip (afterDot (markerLine n a)))) = _
  rw [hafter, pyStrip_cons_ws (show isPySpace ' ' = true by decide)]
  rfl

theorem runCliLines_markerLines (bs : List (Nat × List Char)) (d : Dict) :
    runCliLines d (markerLines bs) = some (bs.foldl insStep d) := by
  induction bs generalizing d with
  | nil => rfl
  | cons b bs ih =>
    rw [show markerLines (b :: bs) = markerLine b.1 b.2 :: markerLines bs from rfl,
      show runCliLines d (markerLine b.1 b.2 :: markerLines bs) =
        match cliStep d (markerLine b.1 b.2) with
        | none => none
        | some d' => runCliLines d' (markerLines bs) from rfl,
      cliStep_markerLine]
    show runCliLines (insStep d (b.1, b.2)) (markerLines bs) = _
    rw [ih]
    rfl

theorem numberFrom_ne_nil (k : Nat) {as : List (List Char)} (h : as ≠ []) :
    numberFrom k as ≠ [] := by
  cases as with
  | nil => exact absurd rfl h
  | cons a as => simp [numberFrom]

theorem numberFrom_snd_mem {k : Nat} {as : List (List Char)} :
    ∀ b ∈ numberFrom k as, b.2 ∈ as := by
  induction as generalizing k with
  | nil => intro b hb; simp [numberFrom] at hb
  | cons a as ih =>
    intro b hb
    rcases List.mem_cons.1 hb with he | hb
    · rw [he]
      simp
    · exact List.mem_cons.2 (Or.inr (ih b hb))

theorem runLines_skip_preamble : ∀ pre : List (List Char),
    (∀ l ∈ pre, ¬ IsMarker l) → runLines initPState pre = some initPState := by
  intro pre
  induction pre with
  | nil => intro h; rfl
  | cons l ls ih =>
    intro h
    rw [runLines_cons]
    by_cases hb : pyStrip l = []
    · rw [processLine_blank _ hb]
      exact ih (fun x hx => h x (by simp [hx]))
    · rw [processLine_not_marker _ hb (h l (by simp)),
        if_neg (show ¬initPState.currentIdx.isSome = true by decide)]
      exact ih (fun x hx => h x (by simp [hx]))

theorem dictGet?_foldl_insStep_untouched (post : List (Nat × List Char))
    (d : Dict) (k : Int) (h : ∀ b ∈ post, ((b.1 : Int) - 1) ≠ k) :
    dictGet? (post.foldl insStep d) k = dictGet? d k := by
  induction post generalizing d with
  | nil => rfl
  | cons b post ih =>
    rw [List.foldl_cons, ih _ (fun x hx => h x (by simp [hx]))]
    exact dictGet?_insert_ne _ _ _ _ (h b (by simp)).symm

theorem qaPairsFrom_map_fst (d : Dict) (i : Nat) (qs : List (List Char)) :
    (qaPairsFrom d i qs).map Prod.fst = qs := by
  induction qs generalizing i with
  | nil => rfl
  | cons q qs ih => simp [qaPairsFrom, ih]

theorem qaPairsFrom_getElem? (d : Dict) (i j : Nat) (qs : List (List Char)) :
    (qaPairsFrom d i qs)[j]? =
      (qs[j]?).map (fun q => (q, (dictGet? d ((i + j : Nat) : Int)).getD [])) := by
  induction qs generalizing i j with
  | nil => simp [qaPairsFrom]
  | cons q qs ih =>
    cases j with
    | zero => simp [qaPairsFrom]
    | succ j =>
      rw [show qaPairsFrom d i (q :: qs) =
          (q, (dictGet? d (i : Int)).getD []) :: qaPairsFrom d (i + 1) qs from rfl]
      rw [List.getElem?_cons_succ, List.getElem?_cons_succ, ih]
      have : (i + 1) + j = i + (j + 1) := by omega
      rw [this]


/-! ## The claims -/

/-- C1: for every well-formed numbered input text whose lines are
`"1. <a1>"`, ..., `"<n>. <an>"` in order, each answer on a single line, the
Numbered-Response Parser (in both its `main.py` and `apply_cli.py` forms)
returns exactly the mapping `{0 ↦ a1 trimmed, ..., n-1 ↦ an trimmed}`. -/
theorem c1_wellformed_numbered_input_yields_indexed_mapping
    (as : List (List Char)) (hne : as ≠ [])
    (ha : ∀ a ∈ as, ∀ c ∈ a, isLineBreak c = false) :
    parseAnswers (joinChar '\n' (markerLines (numberFrom 1 as))) =
      some ((numberFrom 1 as).map (fun b => ((b.1 : Int) - 1, pyStrip b.2))) ∧
    parseCli (joinChar '\n' (markerLines (numberFrom 1 as))) =
      some ((numberFrom 1 as).map (fun b => ((b.1 : Int) - 1, pyStrip b.2))) := by
  have hsplit : splitChar '\n' (joinChar '\n' (markerLines (numberFrom 1 as))) =
      markerLines (numberFrom 1 as) :=
    splitChar_joinChar_markerLines (numberFrom_ne_nil 1 hne)
      (fun b hb => ha b.2 (numberFrom_snd_mem b hb))
  have hfold : (numberFrom 1 as).foldl insStep [] =
      (numberFrom 1 as).map (fun b => ((b.1 : Int) - 1, pyStrip b.2)) := by
    rw [foldl_insStep_numberFrom as 1 [] (fun p hp => by simp at hp)]
    rfl
  constructor
  · unfold parseAnswers
    rw [hsplit, parseLines_markerLines, hfold]
  · unfold parseCli
    rw [hsplit, runCliLines_markerLines, hfold]

/-- C1 witness: the concrete instance `"1. Answer one\n2. Answer two"`
yields `{0 ↦ "Answer one", 1 ↦ "Answer two"}` for both parsers. -/
theorem c1_wellformed_numbered_input_yields_indexed_mapping_witness :
    parseAnswers ("1. Answer one\n2. Answer two".toList) =
      some [((0 : Int), "Answer one".toList), ((1 : Int), "Answer two".toList)] ∧
    parseCli ("1. Answer one\n2. Answer two".toList) =
      some [((0 : Int), "Answer one".toList), ((1 : Int), "Answer two".toList)] := by
  have h := c1_wellformed_numbered_input_yields_indexed_mapping
    ["Answer one".toList, "Answer two".toList] (by decide) (by decide)
  rw [show joinChar '\n'
      (markerLines (numberFrom 1 ["Answer one".toList, "Answer two".toList])) =
      "1. Answer one\n2. Answer two".toList from by decide] at h
  exact ⟨h.1.trans (by decide), h.2.trans (by decide)⟩

/-- C2: an answer opened by a marker line absorbs every following
non-marker, non-blank line (stripped) until the next marker, joined with
single spaces on the flush; blank lines are skipped without terminating the
answer, and the next marker starts its own buffer. -/
theorem c2_multiline_answer_joined_with_spaces
    (st : PState) (m n : Nat) (b a : List Char) (cs : List (List Char))
    (h : ∀ c ∈ cs, ¬ IsMarker c) :
    runLines st (markerLine m b :: (cs ++ [markerLine n a])) =
      some ⟨dictInsert (flushA st) ((m : Int) - 1)
          (pyStrip (joinChar ' '
            (pyStrip b :: (cs.map pyStrip).filter (fun l => l ≠ [])))),
        some ((n : Int) - 1), [pyStrip a]⟩ := by
  rw [runLines_cons, processLine_markerLine]
  show runLines ⟨flushA st, some ((m : Int) - 1), [pyStrip b]⟩
      (cs ++ [markerLine n a]) = _
  rw [runLines_append,
    runLines_cont_block cs ⟨flushA st, some ((m : Int) - 1), [pyStrip b]⟩ rfl h]
  show runLines ⟨flushA st, some ((m : Int) - 1),
      [pyStrip b] ++ (cs.map pyStrip).filter (fun l => l ≠ [])⟩
      [markerLine n a] = _
  rw [runLines_cons, processLine_markerLine]
  rfl

/-- C2 witness: `"1. Line one\nstill line one\n2. next"` yields
`{0 ↦ "Line one still line one", 1 ↦ "next"}`. -/
theorem c2_multiline_answer_joined_with_spaces_witness :
    parseAnswers ("1. Line one\nstill line one\n2. next".toList) =
      some [((0 : Int), "Line one still line one".toList),
            ((1 : Int), "next".toList)] := by
  have h := c2_multiline_answer_joined_with_spaces initPState 1 2
    ("Line one".toList) ("next".toList) ["still line one".toList] (by decide)
  show (runLines initPState
      (splitChar '\n' ("1. Line one\nstill line one\n2. next".toList))).map
      flushA = _
  rw [show splitChar '\n' ("1. Line one\nstill line one\n2. next".toList) =
      markerLine 1 ("Line one".toList) ::
        (["still line one".toList] ++ [markerLine 2 ("next".toList)])
      from by decide]
  rw [h]
  decide

/-- C3 counterexample: the Parser is not total.  On the input
`"1x. foo"` the line passes the marker test (first character a digit, a dot
somewhere), but `int("1x")` raises `ValueError`, modelled as `none`, in both
`main.py` and `apply_cli.py`. -/
theorem c3_cex_int_value_error :
    parseAnswers ("1x. foo".toList) = none ∧
    parseCli ("1x. foo".toList) = none := by decide

/-- C3 as amended: the parse raises no exception and returns a mapping for
every input text in which each marker-shaped line has a Python-int-parsable
prefix before its first dot; on other inputs `int()` raises `ValueError`. -/
theorem c3_amended_parse_total_when_prefixes_numeric (text : List Char)
    (h : ∀ l ∈ splitChar '\n' text,
      IsMarker l → pyInt? (beforeDot (pyStrip l)) ≠ none) :
    ∃ d, parseAnswers text = some d := by
  suffices hgen : ∀ ls : List (List Char),
      (∀ l ∈ ls, IsMarker l → pyInt? (beforeDot (pyStrip l)) ≠ none) →
      ∀ st, ∃ st', runLines st ls = some st' by
    obtain ⟨st', hst⟩ := hgen _ h initPState
    refine ⟨flushA st', ?_⟩
    unfold parseAnswers parseLines
    rw [hst]
    rfl
  intro ls
  induction ls with
  | nil => exact fun _ st => ⟨st, rfl⟩
  | cons l ls ih =>
    intro hl st
    by_cases hb : pyStrip l = []
    · obtain ⟨st', hst⟩ := ih (fun x hx => hl x (by simp [hx])) st
      exact ⟨st', by rw [runLines_cons, processLine_blank st hb]; exact hst⟩
    · by_cases hm : IsMarker l
      · obtain ⟨n, hn⟩ : ∃ n, pyInt? (beforeDot (pyStrip l)) = some n := by
          cases hx : pyInt? (beforeDot (pyStrip l)) with
          | none => exact absurd hx (hl l (by simp) hm)
          | some n => exact ⟨n, rfl⟩
        obtain ⟨st', hst⟩ := ih (fun x hx => hl x (by simp [hx]))
          ⟨flushA st, some (n - 1), [pyStrip (afterDot (pyStrip l))]⟩
        refine ⟨st', ?_⟩
        rw [runLines_cons, processLine_of_marker st hm, hn]
        exact hst
      · by_cases hs : st.currentIdx.isSome
        · obtain ⟨st', hst⟩ := ih (fun x hx => hl x (by simp [hx]))
            { st with buffer := st.buffer ++ [pyStrip l] }
          refine ⟨st', ?_⟩
          rw [runLines_cons, processLine_not_marker st hb hm, if_pos hs]
          exact hst
        · obtain ⟨st', hst⟩ := ih (fun x hx => hl x (by simp [hx])) st
          refine ⟨st', ?_⟩
          rw [runLines_cons, processLine_not_marker st hb hm, if_neg hs]
          exact hst

/-- C3 amended witness: on `"1. A"` the hypothesis holds and the parse
returns a mapping. -/
theorem c3_amended_parse_total_when_prefixes_numeric_witness :
    ∃ d, parseAnswers ("1. A".toList) = some d :=
  c3_amended_parse_total_when_prefixes_numeric ("1. A".toList) (by decide)

/-- C4: a line is treated as a new answer marker exactly when, after
trimming, its first character is a digit and it contains a dot anywhere
(the condition spelled out by `IsMarker`): on a marker the parser flushes
and starts a new buffer at the parsed index (or dies in `int`), on a
non-marker it never touches `answers` or `current_idx`; consequently
`"2.5 is my experience rating"` is misparsed as a new marker for index 1. -/
theorem c4_marker_test_digit_and_dot :
    (∀ (st : PState) (raw : List Char), IsMarker raw →
      processLine st raw =
        match pyInt? (beforeDot (pyStrip raw)) with
        | none => none
        | some n =>
          some ⟨flushA st, some (n - 1), [pyStrip (afterDot (pyStrip raw))]⟩) ∧
    (∀ (st : PState) (raw : List Char), ¬ IsMarker raw →
      ∃ st', processLine st raw = some st' ∧ st'.answers = st.answers ∧
        st'.currentIdx = st.currentIdx) ∧
    parseAnswers ("2.5 is my experience rating".toList) =
      some [((1 : Int), "5 is my experience rating".toList)] := by
  refine ⟨fun st raw h => processLine_of_marker st h,
    fun st raw h => ?_, by decide⟩
  by_cases hb : pyStrip raw = []
  · exact ⟨st, processLine_blank st hb, rfl, rfl⟩
  · rw [processLine_not_marker st hb h]
    by_cases hs : st.currentIdx.isSome
    · exact ⟨{ st with buffer := st.buffer ++ [pyStrip raw] },
        by rw [if_pos hs], rfl, rfl⟩
    · exact ⟨st, by rw [if_neg hs], rfl, rfl⟩

/-- C4 witness: the marker branch applied to the bug line. -/
theorem c4_marker_test_digit_and_dot_witness :
    processLine initPState ("2.5 is my experience rating".toList) =
      some ⟨[], some 1, ["5 is my experience rating".toList]⟩ := by
  have h := c4_marker_test_digit_and_dot.1 initPState
    ("2.5 is my experience rating".toList) (by decide)
  rw [h]
  decide

/-- C5: an answer is stored under the integer parsed before its marker
line's first dot, minus one, independent of the marker's position: every
marker sets `current_idx` to that value, the following flush writes the
buffer under it, and out-of-order or skipped numbers give sparse or
reordered mappings with no error, as on `"3. C\n1. A"`. -/
theorem c5_index_is_parsed_number_minus_one :
    (∀ bs : List (Nat × List Char),
      parseLines (markerLines bs) = some (bs.foldl insStep [])) ∧
    (∀ (st : PState) (raw : List Char) (n : Int), IsMarker raw →
      pyInt? (beforeDot (pyStrip raw)) = some n →
      processLine st raw =
        some ⟨flushA st, some (n - 1), [pyStrip (afterDot (pyStrip raw))]⟩) ∧
    (∀ (st : PState) (i : Int), st.currentIdx = some i →
      dictGet? (flushA st) i = some (pyStrip (joinChar ' ' st.buffer))) ∧
    parseAnswers ("3. C\n1. A".toList) =
      some [((2 : Int), "C".toList), ((0 : Int), "A".toList)] := by
  refine ⟨parseLines_markerLines, fun st raw n hm hn => ?_,
    fun st i h => ?_, by decide⟩
  · rw [processLine_of_marker st hm, hn]
  · unfold flushA
    rw [h]
    exact dictGet?_insert_self _ _ _

/-- C5 witness: the marker-step and flush conjuncts at a concrete state. -/
theorem c5_index_is_parsed_number_minus_one_witness :
    processLine initPState ("5. X".toList) =
      some ⟨[], some 4, ["X".toList]⟩ ∧
    dictGet? (flushA ⟨[], some 4, ["X".toList]⟩) 4 = some ("X".toList) := by
  constructor
  · have h := c5_index_is_parsed_number_minus_one.2.1 initPState
      ("5. X".toList) 5 (by decide) (by decide)
    exact h.trans (by decide)
  · have h := c5_index_is_parsed_number_minus_one.2.2.1
      ⟨[], some 4, ["X".toList]⟩ 4 rfl
    exact h.trans (by decide)


/-- C6: when the run over the lines of the input ends with a pending marker
(`current_idx = some i`), the Parser still flushes the buffered answer: the
returned mapping binds index `i` to `" ".join(buffer).strip()`. -/
theorem c6_trailing_answer_flushed_at_end (text : List Char) (st : PState)
    (i : Int) (hrun : runLines initPState (splitChar '\n' text) = some st)
    (hidx : st.currentIdx = some i) :
    (parseAnswers text).bind (fun d => dictGet? d i) =
      some (pyStrip (joinChar ' ' st.buffer)) := by
  unfold parseAnswers parseLines
  rw [hrun]
  show dictGet? (flushA st) i = _
  unfold flushA
  rw [hidx]
  exact dictGet?_insert_self _ _ _

/-- C6 witness: `"1. A"` ends with the marker for index 0 and no further
marker, and the mapping still contains `0 ↦ "A"`. -/
theorem c6_trailing_answer_flushed_at_end_witness :
    (parseAnswers ("1. A".toList)).bind (fun d => dictGet? d 0) =
      some ("A".toList) := by
  have h := c6_trailing_answer_flushed_at_end ("1. A".toList)
    ⟨[], some 0, ["A".toList]⟩ 0 (by decide) rfl
  exact h.trans (by decide)

/-- C7: `main` builds `qa_pairs` by pairing each question, exactly once and
in input order, with the parsed answer at its zero-based index,
substituting the empty string for every index absent from the parsed
`AnswerSet`. -/
theorem c7_caller_pairs_questions_with_answers_or_empty
    (dict : Dict) (qs : List (List Char)) (_hne : qs ≠ []) :
    (qaPairs dict qs).map Prod.fst = qs ∧
    (∀ i : Nat, (qaPairs dict qs)[i]? =
      (qs[i]?).map (fun q => (q, (dictGet? dict (i : Int)).getD []))) ∧
    (∀ (i : Nat) (q : List Char), qs[i]? = some q →
      dictGet? dict (i : Int) = none → (qaPairs dict qs)[i]? = some (q, [])) := by
  refine ⟨qaPairsFrom_map_fst dict 0 qs, fun i => ?_, fun i q hq hnone => ?_⟩
  · unfold qaPairs
    rw [qaPairsFrom_getElem?]
    have : ((0 + i : Nat) : Int) = (i : Int) := by omega
    rw [this]
  · unfold qaPairs
    rw [qaPairsFrom_getElem?]
    have : ((0 + i : Nat) : Int) = (i : Int) := by omega
    rw [this, hq, hnone]
    rfl

/-- C7 witness: two questions, an answer parsed only for index 0. -/
theorem c7_caller_pairs_questions_with_answers_or_empty_witness :
    (qaPairs [((0 : Int), "x".toList)] ["q1".toList, "q2".toList]).map
      Prod.fst = ["q1".toList, "q2".toList] ∧
    (qaPairs [((0 : Int), "x".toList)] ["q1".toList, "q2".toList])[1]? =
      some ("q2".toList, []) := by
  have h := c7_caller_pairs_questions_with_answers_or_empty
    [((0 : Int), "x".toList)] ["q1".toList, "q2".toList] (by decide)
  exact ⟨h.1, h.2.2 1 ("q2".toList) (by decide) (by decide)⟩

/-- C8 counterexample: with `GEMINI_API_KEY` present in the environment but
bound to the empty string, the key is present yet startup does not proceed
past the check: the truthiness test `if not GEMINI_API_KEY` treats the
empty value like an absent variable and raises the fatal `RuntimeError`. -/
theorem c8_cex_present_empty_key_still_fatal :
    envGet [(geminiKeyName, [])] geminiKeyName = some [] ∧
    mainStartup [(geminiKeyName, [])] =
      .error ("GEMINI_API_KEY not found in environment.".toList) := ⟨rfl, rfl⟩

/-- C8 as amended: if the API key variable is absent *or bound to the empty
string*, startup raises the fatal `RuntimeError` at once; if it is present
with a non-empty value, startup proceeds past the check with that key. -/
theorem c8_amended_startup_fatal_iff_key_falsy (env : Env) :
    (envGet env geminiKeyName = none →
      mainStartup env =
        .error ("GEMINI_API_KEY not found in environment.".toList)) ∧
    (envGet env geminiKeyName = some [] →
      mainStartup env =
        .error ("GEMINI_API_KEY not found in environment.".toList)) ∧
    (∀ k, envGet env geminiKeyName = some k → k ≠ [] →
      mainStartup env = .ok k) := by
  refine ⟨fun h => ?_, fun h => ?_, fun k hk hne => ?_⟩
  · unfold mainStartup
    rw [h]
  · unfold mainStartup
    rw [h]
    rfl
  · unfold mainStartup
    rw [hk]
    show (if k = [] then Except.error _ else Except.ok k) = Except.ok k
    rw [if_neg hne]

/-- C8 amended witness: absent key is fatal, non-empty key proceeds. -/
theorem c8_amended_startup_fatal_iff_key_falsy_witness :
    mainStartup [] =
      .error ("GEMINI_API_KEY not found in environment.".toList) ∧
    mainStartup [(geminiKeyName, "k".toList)] = .ok ("k".toList) :=
  ⟨(c8_amended_startup_fatal_iff_key_falsy []).1 (by decide),
   (c8_amended_startup_fatal_iff_key_falsy [(geminiKeyName, "k".toList)]).2.2
     ("k".toList) (by decide) (by decide)⟩

/-- C9: lines occurring before the first numbered marker are discarded:
with no marker seen yet (`current_idx = None`) neither blank nor non-marker
lines change the state, so a non-marker preamble never contributes to any
answer and the parse equals the parse of the remaining lines. -/
theorem c9_preamble_before_first_marker_discarded
    (pre rest : List (List Char)) (h : ∀ l ∈ pre, ¬ IsMarker l) :
    parseLines (pre ++ rest) = parseLines rest := by
  unfold parseLines
  rw [runLines_append, runLines_skip_preamble pre h]

/-- C9 witness: the preamble `"Here are your answers:"` is discarded. -/
theorem c9_preamble_before_first_marker_discarded_witness :
    parseLines (["Here are your answers:".toList] ++ ["1. A".toList]) =
      parseLines ["1. A".toList] :=
  c9_preamble_before_first_marker_discarded
    ["Here are your answers:".toList] ["1. A".toList] (by decide)

/-- C10: when two well-formed marker lines carry the same number `n`, the
returned mapping binds index `n - 1` to the answer of the later marker (no
later marker re-using `n`): the last write wins and the earlier answer is
overwritten. -/
theorem c10_duplicate_marker_number_last_write_wins
    (pre mid post : List (Nat × List Char)) (n : Nat) (a1 a2 : List Char)
    (h : ∀ b ∈ post, b.1 ≠ n) :
    (parseLines (markerLines
        (pre ++ [(n, a1)] ++ mid ++ [(n, a2)] ++ post))).bind
      (fun d => dictGet? d ((n : Int) - 1)) = some (pyStrip a2) := by
  rw [parseLines_markerLines]
  show dictGet?
      ((pre ++ [(n, a1)] ++ mid ++ [(n, a2)] ++ post).foldl insStep [])
      ((n : Int) - 1) = some (pyStrip a2)
  simp only [List.foldl_append, List.foldl_cons, List.foldl_nil]
  rw [dictGet?_foldl_insStep_untouched post _ _
    (fun b hb he => h b hb (by omega))]
  show dictGet? (dictInsert _ ((n : Int) - 1) (pyStrip a2)) ((n : Int) - 1) = _
  exact dictGet?_insert_self _ _ _

/-- C10 witness: `"1. first"` then `"1. second"` leaves `0 ↦ "second"`. -/
theorem c10_duplicate_marker_number_last_write_wins_witness :
    (parseLines (markerLines [(1, "first".toList), (1, "second".toList)])).bind
      (fun d => dictGet? d 0) = some ("second".toList) := by
  have h := c10_duplicate_marker_number_last_write_wins [] [] [] 1
    ("first".toList) ("second".toList) (by decide)
  rw [show (([] ++ [((1 : Nat), "first".toList)] ++ [] ++
      [((1 : Nat), "second".toList)] ++ []) : List (Nat × List Char)) =
      [(1, "first".toList), (1, "second".toList)] from by decide] at h
  rw [show (((1 : Nat) : Int) - 1) = (0 : Int) from by decide] at h
  exact h.trans (by decide)

end JobApplyer
